import Mathlib

/-!
Verification development for the mdarray repository (grid.rs, serde.rs).

The owned dense array `GridArray<T, D>` is a pair of a storage vector and a
dense layout.  A dense layout of rank `R` is determined by its shape, an array
of `R` dimension sizes; its element count is the product of the sizes, and
elements are stored in column-major order (dimension 0 varies fastest).  We
embed the shape as a `List Nat` whose length is the rank, and the storage
vector as a `List α` in storage order.
-/

/-- Owned array: storage vector plus the dense layout's shape
(`GridArray<T, D>` = `GridBuffer` = `(Vec<T>, DenseLayout<D>)`). -/
structure Grid (α : Type) where
  vec : List α
  shape : List Nat
deriving DecidableEq, Repr

/-- Model of `DenseLayout::default()`: shape is all zeros (rank many), length 0. -/
def defaultShape (rank : Nat) : List Nat :=
  List.replicate rank 0

/-- The `debug_assert` at the `from_parts` construction boundary:
the buffer's element count equals the layout's element count
(`vec.len() == layout.len()`, where a dense layout's `len` is the product
of its shape). -/
def lengthInvariant (g : Grid α) : Prop :=
  g.vec.length = g.shape.prod

instance (g : Grid α) : Decidable (lengthInvariant g) := by
  unfold lengthInvariant; infer_instance

/-- Model of `GridArray::new()`: empty vector, default layout. -/
def Grid.new (α : Type) (rank : Nat) : Grid α :=
  ⟨[], defaultShape rank⟩

/-- Model of `SpanArray::is_empty()`: the layout's element count is zero. -/
def Grid.isEmpty (g : Grid α) : Prop :=
  g.shape.prod = 0

instance (g : Grid α) : Decidable g.isEmpty := by
  unfold Grid.isEmpty; infer_instance

/-- Model of `SpanArray::size(RANK - 1)`: the outer dimension's size, `shape[RANK-1]`. -/
def Grid.outer (g : Grid α) : Nat :=
  g.shape.getLastD 0

/-- Model of the slice `shape[..RANK-1]`: the inner dimension sizes. -/
def Grid.innerDims (g : Grid α) : List Nat :=
  g.shape.dropLast

/-- Model of `GridArray::append(&mut other)` (grid.rs lines 40-62).  Computes the new
shape first: if `self` is empty the new shape is `other`'s; otherwise the
inner dimensions must match (else the `assert!` panics, modelled as `none`)
and the outer size becomes the sum.  Then the buffer move: `other`'s elements
are appended to `self`'s vector, `other` is left with an empty vector and the
default layout. -/
def Grid.append (a b : Grid α) : Option (Grid α × Grid α) :=
  if a.isEmpty then
    some (⟨a.vec ++ b.vec, b.shape⟩, ⟨[], defaultShape b.shape.length⟩)
  else if b.shape.dropLast = a.shape.dropLast then
    some (⟨a.vec ++ b.vec, a.shape.dropLast ++ [a.outer + b.outer]⟩,
          ⟨[], defaultShape b.shape.length⟩)
  else
    none

/-- Model of `GridArray::clear()`: drop all elements, reset the layout to default. -/
def Grid.clear (g : Grid α) : Grid α :=
  ⟨[], defaultShape g.shape.length⟩

/-- Model of `Extend<T> for GridArray<T, Const<1>>` (grid.rs lines 412-419): push the
new elements onto the buffer, then install the rank-1 layout whose single
dimension is the buffer's new length. -/
def Grid.extendGrid (g : Grid α) (xs : List α) : Grid α :=
  ⟨g.vec ++ xs, [(g.vec ++ xs).length]⟩

/-- Model of `GridArray::from_elem(shape, elem)`: `product(shape)` clones of the
element, dense layout with the given shape. -/
def Grid.from_elem (shape : List Nat) (x : α) : Grid α :=
  ⟨List.replicate shape.prod x, shape⟩

/-- Model of `From<Vec<T>> for GridArray<T, Const<1>>`: the vector with the rank-1
layout `[vec.len()]`. -/
def Grid.fromVec (xs : List α) : Grid α :=
  ⟨xs, [xs.length]⟩

/-- Model of `GridArray::into_flattened()` = `self.into_vec().into()`. -/
def Grid.into_flattened (g : Grid α) : Grid α :=
  Grid.fromVec g.vec

/-- Model of `GridArray::into_scalar()` (grid.rs lines 176-180): `assert!` that the
layout's element count is one (else panic, modelled as `none`), then pop the
last element of the storage vector (`unwrap` of an empty pop is also a
panic, hence `getLast?`). -/
def Grid.into_scalar (g : Grid α) : Option α :=
  if g.shape.prod = 1 then g.vec.getLast? else none

/-- Modelled from the spec: `DenseLayout::reshape` (layout.rs is not among
the source files).  "`reshape(new_shape)`: valid only if `new_shape` encodes
the same element count as the current shape (else: fails — shape-mismatch
error); purely a metadata change, no data movement." -/
def reshapeLayout (shape newShape : List Nat) : Option (List Nat) :=
  if newShape.prod = shape.prod then some newShape else none

/-- Model of `GridArray::into_shape(shape)` (grid.rs lines 185-189): reinstall the
reshaped layout over the unchanged storage vector. -/
def Grid.into_shape (g : Grid α) (s : List Nat) : Option (Grid α) :=
  (reshapeLayout g.shape s).map (fun l => ⟨g.vec, l⟩)

/-- Model of `GridArray::truncate(size)` (grid.rs lines 259-267): if `size` is below
the outer dimension's size, resize the outer dimension to `size`
(`Layout::resize_dim(RANK-1, size)`, which for a dense layout replaces the
outer size) and truncate the buffer to the new layout's element count;
otherwise do nothing. -/
def Grid.truncate (g : Grid α) (size : Nat) : Grid α :=
  if size < g.outer then
    ⟨g.vec.take (g.shape.dropLast ++ [size]).prod, g.shape.dropLast ++ [size]⟩
  else
    g

/-- The `impl_from_array!` macro (grid.rs lines 427-469), rank-generic model:
`From<[[T; X]; …]>` checks whether any declared size is zero; if so it
returns `Self::new()`, otherwise it takes over the array's storage (whose
flattened memory order is the column-major element order) with the declared
shape. -/
def Grid.fromNestedArray (sizes : List Nat) (flat : List α) : Grid α :=
  if sizes.contains 0 then Grid.new α sizes.length else ⟨flat, sizes⟩

/-! ## from_fn (grid.rs lines 317-326 and 521-539)

The free function `from_fn::<T, D, A, I>` loops `for i in 0..shape[I::RANK]`,
sets `index[I::RANK] = i`, and either writes `f(index)` (when `I::RANK == 0`)
or recurses with `I::Lower`.  The public `GridArray::from_fn` starts it with
`I = D::Lower` (so the outermost loop runs over dimension `RANK-1`) and the
all-zero default index, then installs the dense layout of the given shape. -/

/-- The recursive writer `from_fn::<T, D, A, I>` with `k = I::RANK`: the list
of elements it pushes, in push order. -/
def fromFnAux (shape : List Nat) (f : List Nat → α) : Nat → List Nat → List α
  | 0, index => (List.range (shape.getD 0 0)).map (fun i => f (index.set 0 i))
  | k + 1, index =>
      (List.range (shape.getD (k + 1) 0)).flatMap
        (fun i => fromFnAux shape f k (index.set (k + 1) i))

/-- Model of `GridArray::from_fn(shape, f)`. -/
def Grid.from_fn (shape : List Nat) (f : List Nat → α) : Grid α :=
  ⟨fromFnAux shape f (shape.length - 1) (List.replicate shape.length 0), shape⟩

/-- The column-major index enumeration of a shape: dimension 0 varies
fastest, the last dimension slowest.  This is the specification-side order
used to state what `from_fn` produces. -/
def colexEnum : List Nat → List (List Nat)
  | [] => [[]]
  | s :: rest => (colexEnum rest).flatMap (fun t => (List.range s).map (fun i => i :: t))

/-- The multi-index at linear storage position `k` of a column-major shape:
component `j` is `k` divided by the product of the sizes below `j`, modulo
size `j`. -/
def unrank : List Nat → Nat → List Nat
  | [], _ => []
  | s :: rest, k => k % s :: unrank rest (k / s)

/-! ## Capacity model (spec-modelled)

`reserve` and `shrink_to_fit` (grid.rs lines 214-217 and 253-256) delegate to
the buffer guard's methods; buffer.rs is not among the source files. -/

/-- A buffer with its capacity. -/
structure RawBuf (α : Type) where
  data : List α
  cap : Nat
deriving DecidableEq, Repr

/-- Modelled from the spec: `reserve(additional)` "grows capacity to hold at
least `length + additional` elements; may reallocate and move existing
elements; never shrinks" (buffer.rs is not among the source files). -/
def RawBuf.reserve (b : RawBuf α) (additional : Nat) : RawBuf α :=
  ⟨b.data, max b.cap (b.data.length + additional)⟩

/-- Modelled from the spec: `shrink_to_fit()` reduces capacity "to exactly
`length`; never loses initialized elements" (buffer.rs is not among the
source files). -/
def RawBuf.shrink_to_fit (b : RawBuf α) : RawBuf α :=
  ⟨b.data, b.data.length⟩

-- Sanity checks (kept as examples, not claim theorems).
example : (Grid.from_fn [2, 3] (fun l => 10 * l.getD 0 0 + l.getD 1 0)).vec
    = [0, 10, 1, 11, 2, 12] := by decide
example : colexEnum [2, 2] = [[0, 0], [1, 0], [0, 1], [1, 1]] := by decide
example : Grid.append ⟨[1, 2], [2, 1]⟩ ⟨[3, 4, 5, 6], [2, 2]⟩
    = some (⟨[1, 2, 3, 4, 5, 6], [2, 3]⟩, ⟨[], [0, 0]⟩) := by decide
example : Grid.append ⟨[1, 2], [2, 1]⟩ ⟨[3, 4, 5], [3, 1]⟩ = none := by decide
example : Grid.truncate ⟨[0, 10, 1, 11, 2, 12], [2, 3]⟩ 1 = ⟨[0, 10], [2, 1]⟩ := by
  decide
example : Grid.into_scalar ⟨[7], [1, 1]⟩ = some 7 := by decide

/-! ## Serialization (serde.rs)

An array of rank R serializes as R-deep nested sequences, a rank-0 array as
its single scalar element.  We model the serialized form as a tree of
sequences over scalars, and `Tensor<T, S>` (dynamic dims) as a storage vector
plus its dims. -/

/-- A serialized value: a scalar or a sequence. -/
inductive SVal (α : Type) where
  | scalar : α → SVal α
  | seq : List (SVal α) → SVal α

/-- Model of `Tensor<T, S>`: storage vector (row-major: dims[0] outermost) and dims. -/
structure Tensor (α : Type) where
  vec : List α
  dims : List Nat
deriving DecidableEq, Repr

/-- Model of `Serialize for Slice` (serde.rs lines 113-127): rank 0 serializes the
single element; rank >= 1 serializes a sequence of the `dim(0)` outer
subtensors, each of dims `dims[1..]` and storage `vec[k*m .. k*m+m]` where
`m = product(dims[1..])`. -/
def serializeT [Inhabited α] : List Nat → List α → SVal α
  | [], vec => SVal.scalar (vec.headD default)
  | d :: rest, vec =>
      SVal.seq ((List.range d).map
        (fun k => serializeT rest ((vec.drop (k * rest.prod)).take rest.prod)))

/-- Deserialization errors: a malformed value where a scalar or a sequence
was expected (serde framework error), or mismatched sibling dimensions,
reporting the found and the expected dims
(`"invalid dimensions {found}, expected {expect}"`). -/
inductive DeErr where
  | typeErr : DeErr
  | dimsErr : List Nat → List Nat → DeErr
deriving DecidableEq, Repr

/-- The rank-1 loop of `visit_seq`: read plain elements in order. -/
def scalarsOf : List (SVal α) → Except DeErr (List α)
  | [] => .ok []
  | SVal.scalar x :: vs =>
      match scalarsOf vs with
      | .ok xs => .ok (x :: xs)
      | .error e => .error e
  | SVal.seq _ :: _ => .error DeErr.typeErr

mutual
/-- Model of `TensorVisitor::visit_seq` / `Deserialize for Tensor` (serde.rs lines
32-78 and 93-105) for a fully dynamic shape of the given rank.  Rank 0 reads
the scalar.  Rank 1 collects plain elements; the resulting dim is the count.
Rank >= 2 reads the first element as a tensor of one rank lower, takes its
dims as the expected inner dims (`dims[1..]`), then reads and checks the
remaining siblings in order, concatenating their storage; the outer dim is
the number of siblings read. -/
def deserializeT : Nat → SVal α → Except DeErr (Tensor α)
  | 0, SVal.scalar x => .ok ⟨[x], []⟩
  | 0, SVal.seq _ => .error DeErr.typeErr
  | 1, SVal.scalar _ => .error DeErr.typeErr
  | 1, SVal.seq l =>
      match scalarsOf l with
      | .ok xs => .ok ⟨xs, [xs.length]⟩
      | .error e => .error e
  | _ + 2, SVal.scalar _ => .error DeErr.typeErr
  | r + 2, SVal.seq [] => .ok ⟨[], 0 :: List.replicate (r + 1) 0⟩
  | r + 2, SVal.seq (v :: vs) =>
      match deserializeT (r + 1) v with
      | .error e => .error e
      | .ok t =>
          match deserializeSubs (r + 1) t.dims vs with
          | .error e => .error e
          | .ok ts => .ok ⟨((t :: ts).map Tensor.vec).flatten, (ts.length + 1) :: t.dims⟩
termination_by r v => sizeOf v

/-- The rank >= 2 loop over the remaining siblings: each must deserialize at
the lower rank and carry exactly the expected dims, else the loop stops with
a dims-mismatch error reporting found vs expected. -/
def deserializeSubs : Nat → List Nat → List (SVal α) → Except DeErr (List (Tensor α))
  | _, _, [] => .ok []
  | r, expect, v :: vs =>
      match deserializeT r v with
      | .error e => .error e
      | .ok t =>
          if t.dims = expect then
            match deserializeSubs r expect vs with
            | .error e => .error e
            | .ok ts => .ok (t :: ts)
          else
            .error (DeErr.dimsErr t.dims expect)
termination_by r e l => sizeOf l
end

-- Sanity checks for the serde model.
example : serializeT [2, 2] [1, 2, 3, 4]
    = SVal.seq [SVal.seq [SVal.scalar 1, SVal.scalar 2],
                SVal.seq [SVal.scalar 3, SVal.scalar 4]] := rfl
example : deserializeT 2 (serializeT [2, 2] [1, 2, 3, 4]) = .ok ⟨[1, 2, 3, 4], [2, 2]⟩ := by
  simp [serializeT, deserializeT, deserializeSubs, scalarsOf, List.range_succ]
  decide
example : deserializeT 2 (serializeT [0, 1] ([] : List Nat)) = .ok ⟨[], [0, 0]⟩ := by
  simp [serializeT, deserializeT]

/-! ## Helper lemmas -/

/-- A nonempty shape's element count is the product of the inner dimensions
times the outer dimension. -/
theorem prod_dropLast_getLastD (l : List Nat) (h : l ≠ []) :
    l.prod = l.dropLast.prod * l.getLastD 0 := by
  conv_lhs => rw [← List.dropLast_append_getLast h]
  rw [List.prod_append, List.prod_singleton,
    List.getLastD_eq_getLast?, List.getLast?_eq_getLast l h]
  rfl

theorem getLastD_append_singleton (l : List Nat) (x : Nat) :
    (l ++ [x]).getLastD 0 = x := by
  simp [List.getLastD_eq_getLast?]

theorem getD_replicate_zero (n j : Nat) :
    (List.replicate n (0 : Nat)).getD j 0 = 0 := by
  simp only [List.getD_eq_getElem?_getD, List.getElem?_replicate]
  split <;> rfl

theorem prod_defaultShape (rank : Nat) (h : 1 ≤ rank) :
    (defaultShape rank).prod = 0 := by
  simp [defaultShape, List.prod_replicate]
  omega

/-! ## C9: into_scalar -/

/-- C9: `into_scalar()` returns the contained element exactly when the array
holds one element; for any other element count it fails with the
invalid-length panic. -/
theorem into_scalar_correct (g : Grid α) (hinv : lengthInvariant g) :
    (g.shape.prod = 1 → ∃ x, g.vec = [x] ∧ g.into_scalar = some x) ∧
    (g.shape.prod ≠ 1 → g.into_scalar = none) := by
  constructor
  · intro h1
    have hlen : g.vec.length = 1 := by rw [hinv, h1]
    obtain ⟨x, hx⟩ := List.length_eq_one.mp hlen
    exact ⟨x, hx, by simp [Grid.into_scalar, h1, hx]⟩
  · intro h1
    simp [Grid.into_scalar, h1]

theorem into_scalar_correct_witness :
    lengthInvariant (⟨[7], [1, 1]⟩ : Grid Nat) ∧
    (((⟨[7], [1, 1]⟩ : Grid Nat).shape.prod = 1 →
        ∃ x, (⟨[7], [1, 1]⟩ : Grid Nat).vec = [x] ∧
          (⟨[7], [1, 1]⟩ : Grid Nat).into_scalar = some x) ∧
      ((⟨[7], [1, 1]⟩ : Grid Nat).shape.prod ≠ 1 →
        (⟨[7], [1, 1]⟩ : Grid Nat).into_scalar = none)) :=
  ⟨by decide, into_scalar_correct ⟨[7], [1, 1]⟩ (by decide)⟩

/-! ## C7: into_shape -/

/-- C7: `into_shape(s)` succeeds exactly when `product(s)` equals the
array's element count, in which case the result carries shape `s` over the
unchanged element sequence; a length-changing reshape always fails. -/
theorem into_shape_correct (g : Grid α) (s : List Nat) (hinv : lengthInvariant g) :
    ((g.into_shape s).isSome ↔ s.prod = g.vec.length) ∧
    (s.prod = g.vec.length → g.into_shape s = some ⟨g.vec, s⟩) ∧
    (s.prod ≠ g.vec.length → g.into_shape s = none) := by
  unfold Grid.into_shape reshapeLayout
  rw [hinv]
  by_cases h : s.prod = g.shape.prod <;> simp [h]

theorem into_shape_correct_witness :
    lengthInvariant (⟨[1, 2, 3, 4], [2, 2]⟩ : Grid Nat) ∧
    (((⟨[1, 2, 3, 4], [2, 2]⟩ : Grid Nat).into_shape [4]).isSome ↔
        ([4] : List Nat).prod = (⟨[1, 2, 3, 4], [2, 2]⟩ : Grid Nat).vec.length) ∧
    (([4] : List Nat).prod = (⟨[1, 2, 3, 4], [2, 2]⟩ : Grid Nat).vec.length →
      (⟨[1, 2, 3, 4], [2, 2]⟩ : Grid Nat).into_shape [4]
        = some ⟨(⟨[1, 2, 3, 4], [2, 2]⟩ : Grid Nat).vec, [4]⟩) ∧
    (([4] : List Nat).prod ≠ (⟨[1, 2, 3, 4], [2, 2]⟩ : Grid Nat).vec.length →
      (⟨[1, 2, 3, 4], [2, 2]⟩ : Grid Nat).into_shape [4] = none) := by
  refine ⟨by decide, ?_⟩
  exact into_shape_correct ⟨[1, 2, 3, 4], [2, 2]⟩ [4] (by decide)

/-! ## C8: reserve / shrink_to_fit -/

/-- C8: `reserve` never decreases capacity (and secures room for the
additional elements); `shrink_to_fit` leaves capacity equal to the element
count; neither changes the stored elements. -/
theorem reserve_shrink_correct (b : RawBuf α) (n : Nat) :
    b.cap ≤ (b.reserve n).cap ∧
    b.data.length + n ≤ (b.reserve n).cap ∧
    (b.reserve n).data = b.data ∧
    (RawBuf.shrink_to_fit b).cap = b.data.length ∧
    (RawBuf.shrink_to_fit b).data = b.data := by
  refine ⟨?_, ?_, rfl, rfl, rfl⟩
  · exact le_max_left _ _
  · exact le_max_right _ _

/-! ## C10: From<[[T; X]; ...]> with a zero dimension -/

/-- C10: converting a built-in nested array whose declared sizes include a
zero yields `new()` with the default all-zero shape; declared non-zero sizes
of the other dimensions are not preserved. -/
theorem fromNestedArray_zero (sizes : List Nat) (flat : List α)
    (hrank1 : 1 ≤ sizes.length) (hrank6 : sizes.length ≤ 6) (hzero : 0 ∈ sizes) :
    Grid.fromNestedArray sizes flat = Grid.new α sizes.length ∧
    (Grid.fromNestedArray sizes flat).shape = List.replicate sizes.length 0 ∧
    ∀ j, j < sizes.length → sizes.getD j 0 ≠ 0 →
      (Grid.fromNestedArray sizes flat).shape.getD j 0 ≠ sizes.getD j 0 := by
  refine ⟨by simp [Grid.fromNestedArray, hzero], ?_, ?_⟩
  · simp [Grid.fromNestedArray, hzero, Grid.new, defaultShape]
  · intro j hj hne
    have hc : sizes.contains 0 = true := by simpa using hzero
    rw [Grid.fromNestedArray, if_pos hc]
    simp only [Grid.new, defaultShape]
    rw [getD_replicate_zero]
    omega

theorem fromNestedArray_zero_witness :
    1 ≤ ([3, 0] : List Nat).length ∧ ([3, 0] : List Nat).length ≤ 6 ∧ 0 ∈ ([3, 0] : List Nat) ∧
    (Grid.fromNestedArray [3, 0] ([] : List Nat) = Grid.new Nat ([3, 0] : List Nat).length ∧
      (Grid.fromNestedArray [3, 0] ([] : List Nat)).shape
        = List.replicate ([3, 0] : List Nat).length 0 ∧
      ∀ j, j < ([3, 0] : List Nat).length → ([3, 0] : List Nat).getD j 0 ≠ 0 →
        (Grid.fromNestedArray [3, 0] ([] : List Nat)).shape.getD j 0
          ≠ ([3, 0] : List Nat).getD j 0) :=
  ⟨by decide, by decide, by decide,
    fromNestedArray_zero [3, 0] ([] : List Nat) (by decide) (by decide) (by decide)⟩

/-! ## C1: append -/

/-- C1: for owned arrays of equal rank with `a` non-empty, if `b` shares the
inner dimensions then `append` succeeds: the result's outer size is
`outer(a) + outer(b)`, its inner dimensions are unchanged, its element
sequence in storage order is `elements(a) ++ elements(b)`, and `b` is left
logically empty with the default layout; if an inner dimension mismatches,
`append` panics deterministically (modelled as `none`). -/
theorem append_correct (a b : Grid α)
    (ha : lengthInvariant a) (hb : lengthInvariant b)
    (hrank : 1 ≤ a.shape.length) (hrankb : b.shape.length = a.shape.length)
    (hne : ¬ a.isEmpty) :
    (b.shape.dropLast = a.shape.dropLast →
      ∃ a' b', a.append b = some (a', b') ∧
        a'.vec = a.vec ++ b.vec ∧
        a'.outer = a.outer + b.outer ∧
        a'.shape.dropLast = a.shape.dropLast ∧
        b'.vec = [] ∧ b'.shape = defaultShape b.shape.length ∧ b'.isEmpty) ∧
    (b.shape.dropLast ≠ a.shape.dropLast → a.append b = none) := by
  constructor
  · intro hmatch
    refine ⟨⟨a.vec ++ b.vec, a.shape.dropLast ++ [a.outer + b.outer]⟩,
      ⟨[], defaultShape b.shape.length⟩, ?_, rfl, ?_, ?_, rfl, rfl, ?_⟩
    · rw [Grid.append, if_neg hne, if_pos hmatch]
    · exact getLastD_append_singleton _ _
    · simp
    · show (defaultShape b.shape.length).prod = 0
      exact prod_defaultShape _ (by omega)
  · intro hmis
    rw [Grid.append, if_neg hne, if_neg hmis]

theorem append_correct_witness :
    lengthInvariant (⟨[1, 2], [2, 1]⟩ : Grid Nat) ∧
    lengthInvariant (⟨[3, 4, 5, 6], [2, 2]⟩ : Grid Nat) ∧
    1 ≤ ([2, 1] : List Nat).length ∧
    ¬ (⟨[1, 2], [2, 1]⟩ : Grid Nat).isEmpty ∧
    ((([2, 2] : List Nat).dropLast = ([2, 1] : List Nat).dropLast →
      ∃ a' b', (⟨[1, 2], [2, 1]⟩ : Grid Nat).append ⟨[3, 4, 5, 6], [2, 2]⟩ = some (a', b') ∧
        a'.vec = (⟨[1, 2], [2, 1]⟩ : Grid Nat).vec ++ (⟨[3, 4, 5, 6], [2, 2]⟩ : Grid Nat).vec ∧
        a'.outer = (⟨[1, 2], [2, 1]⟩ : Grid Nat).outer + (⟨[3, 4, 5, 6], [2, 2]⟩ : Grid Nat).outer ∧
        a'.shape.dropLast = ([2, 1] : List Nat).dropLast ∧
        b'.vec = [] ∧ b'.shape = defaultShape ([2, 2] : List Nat).length ∧ b'.isEmpty) ∧
    (([2, 2] : List Nat).dropLast ≠ ([2, 1] : List Nat).dropLast →
      (⟨[1, 2], [2, 1]⟩ : Grid Nat).append ⟨[3, 4, 5, 6], [2, 2]⟩ = none)) :=
  ⟨by decide, by decide, by decide, by decide,
    append_correct ⟨[1, 2], [2, 1]⟩ ⟨[3, 4, 5, 6], [2, 2]⟩
      (by decide) (by decide) (by decide) (by decide) (by decide)⟩

/-! ## C6: truncate -/

/-- C6: `truncate(n)` on an array of outer size `m > n` keeps the first `n`
outer slices (the storage prefix of `innerProduct * n` elements) unchanged
and drops exactly the trailing `innerProduct * (m - n)` elements (each
dropped element leaves the array once, its destructor running once); with
`n >= m` the array is unchanged. -/
theorem truncate_correct (g : Grid α) (n : Nat)
    (hinv : lengthInvariant g) (hrank : 1 ≤ g.shape.length) :
    (n < g.outer →
      (g.truncate n).outer = n ∧
      (g.truncate n).shape = g.shape.dropLast ++ [n] ∧
      (g.truncate n).vec = g.vec.take (g.innerDims.prod * n) ∧
      g.vec = (g.truncate n).vec ++ g.vec.drop (g.innerDims.prod * n) ∧
      (g.vec.drop (g.innerDims.prod * n)).length = g.innerDims.prod * (g.outer - n) ∧
      lengthInvariant (g.truncate n)) ∧
    (g.outer ≤ n → g.truncate n = g) := by
  have hsh : g.shape ≠ [] := by
    cases h : g.shape with
    | nil => rw [h] at hrank; simp at hrank
    | cons x xs => simp
  have hprod : g.shape.prod = g.innerDims.prod * g.outer :=
    prod_dropLast_getLastD g.shape hsh
  constructor
  · intro hlt
    have htr : g.truncate n
        = ⟨g.vec.take (g.shape.dropLast ++ [n]).prod, g.shape.dropLast ++ [n]⟩ := by
      rw [Grid.truncate, if_pos hlt]
    have hprodn : (g.shape.dropLast ++ [n]).prod = g.innerDims.prod * n := by
      rw [List.prod_append, List.prod_singleton]; rfl
    have hlen : g.vec.length = g.innerDims.prod * g.outer := by rw [hinv, hprod]
    have hle : g.innerDims.prod * n ≤ g.vec.length := by
      rw [hlen]
      exact Nat.mul_le_mul_left _ (Nat.le_of_lt hlt)
    refine ⟨?_, ?_, ?_, ?_, ?_, ?_⟩
    · rw [htr]; exact getLastD_append_singleton _ _
    · rw [htr]
    · rw [htr, hprodn]
    · rw [htr, hprodn]
      exact (List.take_append_drop _ _).symm
    · rw [List.length_drop, hlen, ← Nat.mul_sub]
    · show (g.truncate n).vec.length = (g.truncate n).shape.prod
      rw [htr, hprodn]
      simp only [List.length_take]
      rw [Nat.min_eq_left hle]
  · intro hge
    rw [Grid.truncate, if_neg (by omega)]

theorem truncate_correct_witness :
    lengthInvariant (⟨[0, 10, 1, 11, 2, 12], [2, 3]⟩ : Grid Nat) ∧
    1 ≤ ([2, 3] : List Nat).length ∧
    ((1 < (⟨[0, 10, 1, 11, 2, 12], [2, 3]⟩ : Grid Nat).outer →
      ((⟨[0, 10, 1, 11, 2, 12], [2, 3]⟩ : Grid Nat).truncate 1).outer = 1 ∧
      ((⟨[0, 10, 1, 11, 2, 12], [2, 3]⟩ : Grid Nat).truncate 1).shape
        = ([2, 3] : List Nat).dropLast ++ [1] ∧
      ((⟨[0, 10, 1, 11, 2, 12], [2, 3]⟩ : Grid Nat).truncate 1).vec
        = ([0, 10, 1, 11, 2, 12] : List Nat).take
            ((⟨[0, 10, 1, 11, 2, 12], [2, 3]⟩ : Grid Nat).innerDims.prod * 1) ∧
      ([0, 10, 1, 11, 2, 12] : List Nat)
        = ((⟨[0, 10, 1, 11, 2, 12], [2, 3]⟩ : Grid Nat).truncate 1).vec
            ++ ([0, 10, 1, 11, 2, 12] : List Nat).drop
                ((⟨[0, 10, 1, 11, 2, 12], [2, 3]⟩ : Grid Nat).innerDims.prod * 1) ∧
      (([0, 10, 1, 11, 2, 12] : List Nat).drop
          ((⟨[0, 10, 1, 11, 2, 12], [2, 3]⟩ : Grid Nat).innerDims.prod * 1)).length
        = (⟨[0, 10, 1, 11, 2, 12], [2, 3]⟩ : Grid Nat).innerDims.prod
            * ((⟨[0, 10, 1, 11, 2, 12], [2, 3]⟩ : Grid Nat).outer - 1) ∧
      lengthInvariant ((⟨[0, 10, 1, 11, 2, 12], [2, 3]⟩ : Grid Nat).truncate 1)) ∧
    ((⟨[0, 10, 1, 11, 2, 12], [2, 3]⟩ : Grid Nat).outer ≤ 1 →
      (⟨[0, 10, 1, 11, 2, 12], [2, 3]⟩ : Grid Nat).truncate 1
        = ⟨[0, 10, 1, 11, 2, 12], [2, 3]⟩)) :=
  ⟨by decide, by decide,
    truncate_correct ⟨[0, 10, 1, 11, 2, 12], [2, 3]⟩ 1 (by decide) (by decide)⟩

/-! ## C3: from_fn — enumeration lemmas -/

theorem colexEnum_length (shape : List Nat) :
    (colexEnum shape).length = shape.prod := by
  induction shape with
  | nil => rfl
  | cons s rest ih =>
      simp only [colexEnum, List.length_flatMap, Function.comp_def, List.length_map,
        List.length_range, List.prod_cons]
      rw [List.map_const', List.sum_replicate, smul_eq_mul, ih]
      ring

theorem colexEnum_mem (shape : List Nat) :
    ∀ idx, idx ∈ colexEnum shape ↔ List.Forall₂ (· < ·) idx shape := by
  induction shape with
  | nil =>
      intro idx
      simp [colexEnum, List.forall₂_nil_right_iff, eq_comm]
  | cons s rest ih =>
      intro idx
      cases idx with
      | nil => simp [colexEnum, List.forall₂_nil_left_iff]
      | cons i t =>
          simp only [colexEnum, List.mem_flatMap, List.mem_map, List.mem_range,
            List.forall₂_cons]
          constructor
          · rintro ⟨t', ht', i', hi', heq⟩
            obtain ⟨h1, h2⟩ := List.cons.inj heq
            subst h1
            subst h2
            exact ⟨hi', (ih _).mp ht'⟩
          · rintro ⟨hi, ht⟩
            exact ⟨t, (ih t).mpr ht, i, hi, rfl⟩

theorem colexEnum_nodup (shape : List Nat) : (colexEnum shape).Nodup := by
  induction shape with
  | nil => simp [colexEnum]
  | cons s rest ih =>
      rw [colexEnum, List.nodup_flatMap]
      constructor
      · intro t _
        exact List.Nodup.map (fun a b h => (List.cons.inj h).1) (List.nodup_range s)
      · refine ih.imp ?_
        intro t₁ t₂ hne
        intro x hx1 hx2
        simp only [List.mem_map, List.mem_range] at hx1 hx2
        obtain ⟨i₁, -, rfl⟩ := hx1
        obtain ⟨i₂, -, h⟩ := hx2
        exact hne ((List.cons.inj h).2).symm

theorem flatMap_getElem?_uniform {β γ : Type} (f : β → List γ) (s : Nat) :
    ∀ (l : List β) (k : Nat), (∀ b ∈ l, (f b).length = s) → k < s * l.length →
      ∃ b, l[k / s]? = some b ∧ (l.flatMap f)[k]? = (f b)[k % s]? := by
  intro l
  induction l with
  | nil => intro k _ hk; simp at hk
  | cons b tl ih =>
      intro k hlen hk
      have hs : 0 < s := by
        rcases Nat.eq_zero_or_pos s with h0 | h0
        · rw [h0] at hk; simp at hk
        · exact h0
      have hfb : (f b).length = s := hlen b (List.mem_cons_self b tl)
      by_cases hks : k < s
      · have hdiv : k / s = 0 := Nat.div_eq_of_lt hks
        have hmod : k % s = k := Nat.mod_eq_of_lt hks
        refine ⟨b, by simp [hdiv], ?_⟩
        rw [List.flatMap_cons, List.getElem?_append_left (by rw [hfb]; exact hks), hmod]
      · push_neg at hks
        have hk' : k - s < s * tl.length := by
          have h1 : s * (b :: tl).length = s * tl.length + s := by
            rw [List.length_cons, Nat.mul_succ]
          omega
        obtain ⟨b', hb', heq⟩ := ih (k - s)
          (fun x hx => hlen x (List.mem_cons_of_mem b hx)) hk'
        have hdiv : k / s = (k - s) / s + 1 := Nat.div_eq_sub_div hs hks
        have hmod : k % s = (k - s) % s := Nat.mod_eq_sub_mod hks
        refine ⟨b', ?_, ?_⟩
        · rw [hdiv, List.getElem?_cons_succ]; exact hb'
        · rw [List.flatMap_cons, List.getElem?_append_right (by rw [hfb]; exact hks),
            hfb, hmod]
          exact heq

theorem colexEnum_getElem? (shape : List Nat) :
    ∀ k, k < shape.prod → (colexEnum shape)[k]? = some (unrank shape k) := by
  induction shape with
  | nil =>
      intro k hk
      have h1 : k < 1 := by simpa using hk
      have h0 : k = 0 := by omega
      subst h0
      rfl
  | cons s rest ih =>
      intro k hk
      rw [List.prod_cons] at hk
      have hk' : k < s * (colexEnum rest).length := by
        rw [colexEnum_length]; exact hk
      obtain ⟨t, ht, heq⟩ := flatMap_getElem?_uniform
        (fun t => (List.range s).map (fun i => i :: t)) s (colexEnum rest) k
        (fun b _ => by simp) hk'
      have hs : 0 < s := by
        rcases Nat.eq_zero_or_pos s with h0 | h0
        · rw [h0] at hk'; simp at hk'
        · exact h0
      have hdiv : k / s < rest.prod := by
        have h2 := Nat.div_lt_of_lt_mul hk'
        rwa [colexEnum_length] at h2
      have ht' : t = unrank rest (k / s) := by
        rw [ih (k / s) hdiv] at ht
        exact (Option.some.inj ht).symm
      rw [colexEnum, heq, List.getElem?_map, List.getElem?_range (Nat.mod_lt k hs),
        Option.map_some', ht']
      rfl

theorem colexEnum_concat (pre : List Nat) (s : Nat) :
    colexEnum (pre ++ [s])
      = (List.range s).flatMap (fun i => (colexEnum pre).map (fun p => p ++ [i])) := by
  induction pre with
  | nil =>
      show colexEnum [s] = _
      rw [show colexEnum [s]
          = (colexEnum []).flatMap (fun t => (List.range s).map (fun i => i :: t)) from rfl,
        show colexEnum [] = [[]] from rfl]
      simp only [List.flatMap_cons, List.flatMap_nil, List.map_cons, List.map_nil,
        List.append_nil, List.nil_append]
      induction (List.range s) with
      | nil => rfl
      | cons a l ihr => simp [ihr]
  | cons p pr ih =>
      show colexEnum (p :: (pr ++ [s])) = _
      rw [show colexEnum (p :: (pr ++ [s]))
          = (colexEnum (pr ++ [s])).flatMap
              (fun t => (List.range p).map (fun i => i :: t)) from rfl]
      rw [ih, List.flatMap_assoc]
      conv_rhs => rw [show colexEnum (p :: pr)
          = (colexEnum pr).flatMap (fun t => (List.range p).map (fun i => i :: t)) from rfl]
      simp only [List.flatMap_map, List.map_flatMap, List.map_map, Function.comp_def,
        List.cons_append]

theorem drop_set_succ (l : List Nat) (n : Nat) (hn : n < l.length) (i : Nat) :
    (l.set n i).drop n = i :: l.drop (n + 1) := by
  rw [List.set_eq_take_append_cons_drop, if_pos hn]
  have hlen : (l.take n).length = n := List.length_take_of_le (Nat.le_of_lt hn)
  calc (l.take n ++ i :: l.drop (n + 1)).drop n
      = (l.take n ++ i :: l.drop (n + 1)).drop (l.take n).length := by rw [hlen]
    _ = i :: l.drop (n + 1) := List.drop_left _ _

theorem getD_of_lt (l : List Nat) (n : Nat) (hn : n < l.length) :
    l.getD n 0 = l[n] := by
  rw [List.getD_eq_getElem?_getD, List.getElem?_eq_getElem hn]
  rfl

theorem fromFnAux_eq (shape : List Nat) (f : List Nat → α) :
    ∀ (k : Nat) (idx : List Nat), k < shape.length → idx.length = shape.length →
      fromFnAux shape f k idx
        = (colexEnum (shape.take (k + 1))).map (fun p => f (p ++ idx.drop (k + 1))) := by
  intro k
  induction k with
  | zero =>
      intro idx hk hlen
      obtain ⟨s, rest, hsh⟩ : ∃ s rest, shape = s :: rest := by
        cases shape with
        | nil => simp at hk
        | cons s rest => exact ⟨s, rest, rfl⟩
      obtain ⟨x, xs, hidx⟩ : ∃ x xs, idx = x :: xs := by
        cases idx with
        | nil => rw [hsh] at hlen; simp at hlen
        | cons x xs => exact ⟨x, xs, rfl⟩
      subst hsh
      subst hidx
      show (List.range s).map (fun i => f ((x :: xs).set 0 i)) = _
      have h1 : (s :: rest).take 1 = [s] := rfl
      rw [h1]
      have h2 : colexEnum [s] = (List.range s).map (fun i => [i]) := by
        simp [colexEnum]
      rw [h2, List.map_map]
      rfl
  | succ k ih =>
      intro idx hk hlen
      have hk1 : k + 1 < idx.length := by omega
      have hklt : k < shape.length := by omega
      show (List.range (shape.getD (k + 1) 0)).flatMap
          (fun i => fromFnAux shape f k (idx.set (k + 1) i)) = _
      have hstep : ∀ i, fromFnAux shape f k (idx.set (k + 1) i)
          = (colexEnum (shape.take (k + 1))).map
              (fun p => f (p ++ (i :: idx.drop (k + 2)))) := by
        intro i
        rw [ih (idx.set (k + 1) i) hklt (by rw [List.length_set]; exact hlen)]
        congr 1
        funext p
        congr 1
        rw [drop_set_succ idx (k + 1) hk1 i]
      have htake : shape.take (k + 2) = shape.take (k + 1) ++ [shape.getD (k + 1) 0] := by
        rw [List.take_succ, List.getElem?_eq_getElem hk,
          getD_of_lt shape (k + 1) hk]
        rfl
      rw [htake, colexEnum_concat]
      rw [List.map_flatMap]
      congr 1
      funext i
      rw [hstep i, List.map_map]
      congr 1
      funext p
      simp [Function.comp]

theorem from_fn_vec (shape : List Nat) (f : List Nat → α) (h : 1 ≤ shape.length) :
    (Grid.from_fn shape f).vec = (colexEnum shape).map f := by
  show fromFnAux shape f (shape.length - 1) (List.replicate shape.length 0) = _
  rw [fromFnAux_eq shape f (shape.length - 1) (List.replicate shape.length 0)
    (by omega) (by simp)]
  have h1 : shape.length - 1 + 1 = shape.length := by omega
  rw [h1, List.take_length]
  congr 1
  funext p
  rw [List.drop_replicate]
  simp

/-- C3: `from_fn(shape, f)` fills the array with exactly `product(shape)`
elements, one invocation of `f` per multi-index of the shape (the invocation
list `colexEnum shape` is duplicate-free and contains precisely the valid
indices), in column-major order: the element at linear position `k` is `f`
applied to the index whose component `j` is `(k / prod(shape[..j])) %
shape[j]` (dimension 0 varies fastest, the outermost dimension slowest). -/
theorem from_fn_correct (shape : List Nat) (f : List Nat → α) (h : 1 ≤ shape.length) :
    (Grid.from_fn shape f).shape = shape ∧
    (Grid.from_fn shape f).vec.length = shape.prod ∧
    (Grid.from_fn shape f).vec = (colexEnum shape).map f ∧
    (colexEnum shape).Nodup ∧
    (∀ idx, idx ∈ colexEnum shape ↔ List.Forall₂ (· < ·) idx shape) ∧
    (∀ k, k < shape.prod →
      (Grid.from_fn shape f).vec[k]? = some (f (unrank shape k))) := by
  have hvec := from_fn_vec shape f h
  refine ⟨rfl, ?_, hvec, colexEnum_nodup shape, colexEnum_mem shape, ?_⟩
  · rw [hvec, List.length_map, colexEnum_length]
  · intro k hk
    rw [hvec, List.getElem?_map, colexEnum_getElem? shape k hk, Option.map_some']

theorem from_fn_correct_witness :
    1 ≤ ([2, 3] : List Nat).length ∧
    ((Grid.from_fn [2, 3] (fun l => 10 * l.getD 0 0 + l.getD 1 0)).shape = [2, 3] ∧
      (Grid.from_fn [2, 3] (fun l => 10 * l.getD 0 0 + l.getD 1 0)).vec.length
        = ([2, 3] : List Nat).prod ∧
      (Grid.from_fn [2, 3] (fun l => 10 * l.getD 0 0 + l.getD 1 0)).vec
        = (colexEnum [2, 3]).map (fun l => 10 * l.getD 0 0 + l.getD 1 0) ∧
      (colexEnum [2, 3]).Nodup ∧
      (∀ idx, idx ∈ colexEnum [2, 3] ↔ List.Forall₂ (· < ·) idx [2, 3]) ∧
      (∀ k, k < ([2, 3] : List Nat).prod →
        (Grid.from_fn [2, 3] (fun l => 10 * l.getD 0 0 + l.getD 1 0)).vec[k]?
          = some ((fun l => 10 * l.getD 0 0 + l.getD 1 0) (unrank [2, 3] k)))) :=
  ⟨by decide, from_fn_correct [2, 3] (fun l => 10 * l.getD 0 0 + l.getD 1 0) (by decide)⟩

/-! ## C2: the length invariant at every construction boundary -/

/-- C2: `vec.len() == layout.len()` (the `from_parts` debug invariant) holds
for every constructor and is preserved by every structural operation that
installs a new layout: `new`, `From<Vec>`, `from_elem`, `from_fn`,
`From<[[T; X]; ...]>`, `Extend`, `append` (both resulting arrays),
`truncate`, `into_shape`, `into_flattened` and `clear`. -/
theorem length_invariant_preserved (α : Type) :
    (∀ rank : Nat, 1 ≤ rank → lengthInvariant (Grid.new α rank)) ∧
    (∀ xs : List α, lengthInvariant (Grid.fromVec xs)) ∧
    (∀ (shape : List Nat) (x : α), lengthInvariant (Grid.from_elem shape x)) ∧
    (∀ (shape : List Nat) (f : List Nat → α), 1 ≤ shape.length →
      lengthInvariant (Grid.from_fn shape f)) ∧
    (∀ (sizes : List Nat) (flat : List α), 1 ≤ sizes.length →
      flat.length = sizes.prod → lengthInvariant (Grid.fromNestedArray sizes flat)) ∧
    (∀ (g : Grid α) (xs : List α), lengthInvariant (g.extendGrid xs)) ∧
    (∀ a b a' b' : Grid α, lengthInvariant a → lengthInvariant b →
      1 ≤ a.shape.length → b.shape.length = a.shape.length →
      a.append b = some (a', b') → lengthInvariant a' ∧ lengthInvariant b') ∧
    (∀ (g : Grid α) (n : Nat), lengthInvariant g → 1 ≤ g.shape.length →
      lengthInvariant (g.truncate n)) ∧
    (∀ (g : Grid α) (s : List Nat) (g' : Grid α), lengthInvariant g →
      g.into_shape s = some g' → lengthInvariant g') ∧
    (∀ g : Grid α, lengthInvariant g.into_flattened) ∧
    (∀ g : Grid α, 1 ≤ g.shape.length → lengthInvariant g.clear) := by
  refine ⟨?_, ?_, ?_, ?_, ?_, ?_, ?_, ?_, ?_, ?_, ?_⟩
  · intro rank h
    show (0 : Nat) = (defaultShape rank).prod
    rw [prod_defaultShape rank h]
  · intro xs
    exact (List.prod_singleton (a := xs.length)).symm
  · intro shape x
    show (List.replicate shape.prod x).length = shape.prod
    rw [List.length_replicate]
  · intro shape f h
    show (Grid.from_fn shape f).vec.length = shape.prod
    rw [from_fn_vec shape f h, List.length_map, colexEnum_length]
  · intro sizes flat h1 hflat
    by_cases hz : (0 : Nat) ∈ sizes
    · have hc : sizes.contains 0 = true := by simpa using hz
      rw [Grid.fromNestedArray, if_pos hc]
      show ([] : List α).length = (defaultShape sizes.length).prod
      rw [prod_defaultShape _ h1]
      rfl
    · have hc : sizes.contains 0 = false := by simpa using hz
      rw [Grid.fromNestedArray, if_neg (by simpa using hz)]
      exact hflat
  · intro g xs
    show (g.vec ++ xs).length = [(g.vec ++ xs).length].prod
    rw [List.prod_singleton]
  · intro a b a' b' ha hb hrank hrankb happ
    rw [Grid.append] at happ
    by_cases hemp : a.isEmpty
    · rw [if_pos hemp] at happ
      obtain ⟨h1, h2⟩ := Prod.mk.inj (Option.some.inj happ)
      constructor
      · rw [← h1]
        show (a.vec ++ b.vec).length = b.shape.prod
        have hav : a.vec.length = 0 := by rw [ha]; exact hemp
        rw [List.length_append, hav, Nat.zero_add, hb]
      · rw [← h2]
        show ([] : List α).length = (defaultShape b.shape.length).prod
        rw [prod_defaultShape _ (by omega)]
        rfl
    · rw [if_neg hemp] at happ
      by_cases hmatch : b.shape.dropLast = a.shape.dropLast
      · rw [if_pos hmatch] at happ
        obtain ⟨h1, h2⟩ := Prod.mk.inj (Option.some.inj happ)
        have hsh : a.shape ≠ [] := by
          cases h : a.shape with
          | nil => rw [h] at hrank; simp at hrank
          | cons x xs => simp
        have hshb : b.shape ≠ [] := by
          cases h : b.shape with
          | nil => rw [h] at hrankb; simp at hrankb; omega
          | cons x xs => simp
        constructor
        · rw [← h1]
          show (a.vec ++ b.vec).length = (a.shape.dropLast ++ [a.outer + b.outer]).prod
          rw [List.length_append, List.prod_append, List.prod_singleton, ha, hb,
            prod_dropLast_getLastD a.shape hsh, prod_dropLast_getLastD b.shape hshb,
            hmatch]
          show a.shape.dropLast.prod * a.outer + a.shape.dropLast.prod * b.outer = _
          ring
        · rw [← h2]
          show ([] : List α).length = (defaultShape b.shape.length).prod
          rw [prod_defaultShape _ (by omega)]
          rfl
      · rw [if_neg hmatch] at happ
        exact absurd happ (by simp)
  · intro g n hinv hrank
    rw [Grid.truncate]
    by_cases hlt : n < g.outer
    · rw [if_pos hlt]
      show (g.vec.take (g.shape.dropLast ++ [n]).prod).length
          = (g.shape.dropLast ++ [n]).prod
      rw [List.length_take]
      apply Nat.min_eq_left
      have hsh : g.shape ≠ [] := by
        cases h : g.shape with
        | nil => rw [h] at hrank; simp at hrank
        | cons x xs => simp
      rw [hinv, prod_dropLast_getLastD g.shape hsh, List.prod_append,
        List.prod_singleton]
      exact Nat.mul_le_mul_left _ (Nat.le_of_lt hlt)
    · rw [if_neg hlt]
      exact hinv
  · intro g s g' hinv hsh
    rw [Grid.into_shape, reshapeLayout] at hsh
    by_cases h : s.prod = g.shape.prod
    · rw [if_pos h] at hsh
      simp only [Option.map_some'] at hsh
      rw [← Option.some.inj hsh]
      show g.vec.length = s.prod
      rw [hinv, h]
    · rw [if_neg h] at hsh
      exact absurd hsh (by simp)
  · intro g
    show g.vec.length = [g.vec.length].prod
    rw [List.prod_singleton]
  · intro g h
    show ([] : List α).length = (defaultShape g.shape.length).prod
    rw [prod_defaultShape _ h]
    rfl

/-! ## C4 / C5: serde round-trip and dimension-mismatch errors -/

/-- The outer slices of a storage vector: `n` blocks of `m` elements. -/
def chunksList (m : Nat) : Nat → List α → List (List α)
  | 0, _ => []
  | n + 1, w => w.take m :: chunksList m n (w.drop m)

theorem range_map_chunks (m : Nat) :
    ∀ (n : Nat) (w : List α),
      (List.range n).map (fun k => (w.drop (k * m)).take m) = chunksList m n w := by
  intro n
  induction n with
  | zero => intro w; rfl
  | succ n ih =>
      intro w
      rw [List.range_succ_eq_map, List.map_cons, List.map_map, chunksList]
      congr 1
      · rw [Nat.zero_mul, List.drop_zero]
      · rw [← ih (w.drop m)]
        apply List.map_congr_left
        intro k _
        simp only [Function.comp_apply]
        rw [List.drop_drop]
        congr 2
        rw [Nat.succ_mul, Nat.add_comm, Nat.mul_comm]

theorem chunksList_length (m : Nat) :
    ∀ (n : Nat) (w : List α), (chunksList m n w).length = n := by
  intro n
  induction n with
  | zero => intro w; rfl
  | succ n ih => intro w; rw [chunksList, List.length_cons, ih]

theorem chunksList_flatten (m : Nat) :
    ∀ (n : Nat) (w : List α), w.length = n * m →
      (chunksList m n w).flatten = w := by
  intro n
  induction n with
  | zero =>
      intro w hw
      rw [Nat.zero_mul] at hw
      rw [List.length_eq_zero.mp hw]
      rfl
  | succ n ih =>
      intro w hw
      rw [chunksList, List.flatten_cons, ih (w.drop m) (by
        rw [List.length_drop, hw, Nat.succ_mul]; omega)]
      exact List.take_append_drop m w

theorem chunksList_mem_length (m : Nat) :
    ∀ (n : Nat) (w : List α), w.length = n * m →
      ∀ c ∈ chunksList m n w, c.length = m := by
  intro n
  induction n with
  | zero => intro w _ c hc; exact absurd hc (by simp [chunksList])
  | succ n ih =>
      intro w hw c hc
      rw [chunksList, List.mem_cons] at hc
      rcases hc with rfl | hc
      · rw [List.length_take]
        apply Nat.min_eq_left
        rw [hw, Nat.succ_mul]
        omega
      · exact ih (w.drop m) (by rw [List.length_drop, hw, Nat.succ_mul]; omega) c hc

/-- Every dimension size occurring after a zero size is itself zero.  This is
exactly the information a nested-sequence encoding can retain: an empty outer
sequence carries no trace of the declared inner sizes. -/
def zeroPropagates : List Nat → Bool
  | [] => true
  | d :: rest =>
      (!(d == 0) || rest == List.replicate rest.length 0) && zeroPropagates rest

theorem scalarsOf_map_scalar {β : Type} (g : β → α) :
    ∀ l : List β, scalarsOf (l.map (fun x => SVal.scalar (g x))) = .ok (l.map g) := by
  intro l
  induction l with
  | nil => rfl
  | cons b bl ih => rw [List.map_cons, List.map_cons, scalarsOf, ih]

theorem deserializeSubs_map_ok {β : Type} (r : Nat) (expect : List Nat)
    (enc : β → SVal α) (dec : β → Tensor α) :
    ∀ cs : List β,
      (∀ c ∈ cs, deserializeT r (enc c) = .ok (dec c)) →
      (∀ c ∈ cs, (dec c).dims = expect) →
      deserializeSubs r expect (cs.map enc) = .ok (cs.map dec) := by
  intro cs
  induction cs with
  | nil =>
      intro _ _
      simp [deserializeSubs]
  | cons c cl ih =>
      intro hok hdims
      have h1 := hok c (List.mem_cons_self c cl)
      have h2 := hdims c (List.mem_cons_self c cl)
      have h3 := ih (fun u hu => hok u (List.mem_cons_of_mem c hu))
        (fun u hu => hdims u (List.mem_cons_of_mem c hu))
      simp [deserializeSubs, h1, h2, h3]

theorem getD_range_map (w : List α) (d : Nat) (dflt : α) (h : w.length = d) :
    (List.range d).map (fun k => w.getD k dflt) = w := by
  apply List.ext_getElem
  · rw [List.length_map, List.length_range, h]
  · intro i h1 h2
    rw [List.getElem_map, List.getElem_range]
    rw [List.length_map, List.length_range] at h1
    rw [List.getD_eq_getElem?_getD, List.getElem?_eq_getElem (by omega : i < w.length)]
    rfl

theorem headD_take_drop [Inhabited α] (w : List α) (k : Nat) :
    ((w.drop k).take 1).headD default = w.getD k default := by
  rw [List.headD_eq_head?, List.head?_eq_getElem?, List.getElem?_take,
    if_pos (by omega : (0 : Nat) < 1), List.getElem?_drop, List.getD_eq_getElem?_getD,
    Nat.add_zero]

theorem serialize_roundtrip [Inhabited α] (dims : List Nat) :
    ∀ vec : List α, vec.length = dims.prod → zeroPropagates dims = true →
      deserializeT dims.length (serializeT dims vec) = .ok ⟨vec, dims⟩ := by
  induction dims with
  | nil =>
      intro vec hlen hz
      obtain ⟨x, rfl⟩ := List.length_eq_one.mp (by simpa using hlen)
      simp [serializeT, deserializeT]
  | cons d rest ih =>
      intro vec hlen hz
      have hsplit : ((!(d == 0) || rest == List.replicate rest.length 0) = true)
          ∧ zeroPropagates rest = true := by
        rw [zeroPropagates] at hz
        simpa [Bool.and_eq_true] using hz
      have hz' : zeroPropagates rest = true := hsplit.2
      have hzp : d = 0 → rest = List.replicate rest.length 0 := by
        intro hd
        have h1 := hsplit.1
        rw [hd] at h1
        simpa using h1
      cases rest with
      | nil =>
          have hd : vec.length = d := by simpa using hlen
          have hser : serializeT [d] vec
              = SVal.seq ((List.range d).map
                  (fun k => SVal.scalar (vec.getD k default))) := by
            show SVal.seq _ = _
            congr 1
            apply List.map_congr_left
            intro k _
            show serializeT [] ((vec.drop (k * List.prod [])).take (List.prod [])) = _
            rw [List.prod_nil, Nat.mul_one]
            show SVal.scalar (((vec.drop k).take 1).headD default) = _
            rw [headD_take_drop]
          rw [hser]
          show deserializeT 1 _ = _
          simp only [deserializeT]
          rw [scalarsOf_map_scalar (fun k => vec.getD k default) (List.range d),
            getD_range_map vec d default hd]
          show Except.ok (⟨vec, [vec.length]⟩ : Tensor α) = _
          rw [hd]
      | cons r2 rest2 =>
          by_cases hd0 : d = 0
          · subst hd0
            have hv : vec = [] := List.length_eq_zero.mp (by simpa using hlen)
            subst hv
            have hser : serializeT (0 :: r2 :: rest2) ([] : List α) = SVal.seq [] := by
              show SVal.seq _ = _
              simp
            rw [hser]
            show deserializeT (rest2.length + 2) (SVal.seq []) = _
            simp only [deserializeT]
            have hrep := hzp rfl
            rw [show List.replicate (rest2.length + 1) (0 : Nat) = r2 :: rest2 from by
              conv_rhs => rw [hrep]
              simp]
          · obtain ⟨d', rfl⟩ : ∃ d', d = d' + 1 := ⟨d - 1, by omega⟩
            have hm : vec.length = (d' + 1) * (r2 :: rest2).prod := by
              rw [hlen, List.prod_cons]
            have hmle : (r2 :: rest2).prod ≤ vec.length := by
              rw [hm, Nat.succ_mul]
              omega
            have htail : (vec.drop ((r2 :: rest2).prod)).length
                = d' * (r2 :: rest2).prod := by
              rw [List.length_drop, hm, Nat.succ_mul]
              omega
            have hser : serializeT ((d' + 1) :: r2 :: rest2) vec
                = SVal.seq (serializeT (r2 :: rest2) (vec.take ((r2 :: rest2).prod))
                    :: (chunksList ((r2 :: rest2).prod) d'
                        (vec.drop ((r2 :: rest2).prod))).map
                        (serializeT (r2 :: rest2))) := by
              show SVal.seq _ = _
              congr 1
              rw [show (List.range (d' + 1)).map
                  (fun k => serializeT (r2 :: rest2)
                    ((vec.drop (k * (r2 :: rest2).prod)).take ((r2 :: rest2).prod)))
                  = ((List.range (d' + 1)).map
                      (fun k => (vec.drop (k * (r2 :: rest2).prod)).take
                        ((r2 :: rest2).prod))).map (serializeT (r2 :: rest2)) from by
                rw [List.map_map]; rfl]
              rw [range_map_chunks, chunksList, List.map_cons]
            rw [hser]
            show deserializeT (rest2.length + 2) _ = _
            have hfirst : deserializeT (rest2.length + 1)
                (serializeT (r2 :: rest2) (vec.take ((r2 :: rest2).prod)))
                = .ok ⟨vec.take ((r2 :: rest2).prod), r2 :: rest2⟩ := by
              have := ih (vec.take ((r2 :: rest2).prod))
                (by rw [List.length_take]; exact Nat.min_eq_left hmle) hz'
              simpa using this
            have hsubs : deserializeSubs (rest2.length + 1) (r2 :: rest2)
                ((chunksList ((r2 :: rest2).prod) d'
                    (vec.drop ((r2 :: rest2).prod))).map (serializeT (r2 :: rest2)))
                = .ok ((chunksList ((r2 :: rest2).prod) d'
                    (vec.drop ((r2 :: rest2).prod))).map
                    (fun c => (⟨c, r2 :: rest2⟩ : Tensor α))) := by
              apply deserializeSubs_map_ok
              · intro c hc
                have hclen : c.length = (r2 :: rest2).prod :=
                  chunksList_mem_length _ d' _ htail c hc
                have := ih c (by rw [hclen]) hz'
                simpa using this
              · intro c _
                rfl
            simp only [deserializeT, hfirst, hsubs]
            have hflat : ((( ⟨vec.take ((r2 :: rest2).prod), r2 :: rest2⟩ : Tensor α)
                :: (chunksList ((r2 :: rest2).prod) d'
                    (vec.drop ((r2 :: rest2).prod))).map
                    (fun c => (⟨c, r2 :: rest2⟩ : Tensor α))).map Tensor.vec).flatten
                = vec := by
              rw [List.map_cons, List.map_map]
              show (vec.take ((r2 :: rest2).prod)
                  :: (chunksList ((r2 :: rest2).prod) d'
                      (vec.drop ((r2 :: rest2).prod))).map (fun c => c)).flatten = vec
              rw [List.map_id', List.flatten_cons,
                chunksList_flatten _ d' _ htail, List.take_append_drop]
            rw [hflat]
            have hcount : ((chunksList ((r2 :: rest2).prod) d'
                (vec.drop ((r2 :: rest2).prod))).map
                (fun c => (⟨c, r2 :: rest2⟩ : Tensor α))).length = d' := by
              rw [List.length_map, chunksList_length]
            rw [hcount]

/-- C4 (amended): encode-then-decode reproduces the original dims and
element sequence for arrays of rank 0 through 3 whenever every dimension
that follows a zero-sized dimension is itself zero — in particular for a
rank-2 array whose second (inner) dimension is zero.  (An empty outer
sequence cannot carry the declared inner sizes, so a zero in a non-trailing
position loses them; see the counterexample.) -/
theorem serde_roundtrip [Inhabited α] (dims : List Nat) (vec : List α)
    (hrank : dims.length ≤ 3) (hlen : vec.length = dims.prod)
    (hz : zeroPropagates dims = true) :
    deserializeT dims.length (serializeT dims vec) = .ok ⟨vec, dims⟩ :=
  serialize_roundtrip dims vec hlen hz

theorem serde_roundtrip_witness :
    ([2, 0] : List Nat).length ≤ 3 ∧
    ([] : List Nat).length = ([2, 0] : List Nat).prod ∧
    zeroPropagates [2, 0] = true ∧
    deserializeT ([2, 0] : List Nat).length (serializeT [2, 0] ([] : List Nat))
      = .ok ⟨[], [2, 0]⟩ :=
  ⟨by decide, by decide, by decide,
    serde_roundtrip [2, 0] ([] : List Nat) (by decide) (by decide) (by decide)⟩

/-- C4 counterexample: the claim as stated fails for the rank-2 array of
dims `[0, 1]` (zero outer dimension): decoding its encoding yields dims
`[0, 0]`, not the original `[0, 1]`. -/
theorem serde_roundtrip_cex :
    deserializeT ([0, 1] : List Nat).length (serializeT [0, 1] ([] : List Nat))
        = .ok ⟨[], [0, 0]⟩ ∧
    deserializeT ([0, 1] : List Nat).length (serializeT [0, 1] ([] : List Nat))
        ≠ .ok ⟨[], [0, 1]⟩ := by
  constructor
  · show deserializeT 2 (serializeT [0, 1] ([] : List Nat)) = _
    simp [serializeT, deserializeT]
  · show deserializeT 2 (serializeT [0, 1] ([] : List Nat)) ≠ _
    simp [serializeT, deserializeT]

/-! ## C5: sibling dimension mismatch -/

theorem deserializeSubs_mismatch (r : Nat) (expect : List Nat) :
    ∀ vs : List (SVal α),
      (∀ u ∈ vs, ∃ tu, deserializeT r u = .ok tu) →
      (∃ u ∈ vs, ∀ tu, deserializeT r u = .ok tu → tu.dims ≠ expect) →
      ∃ found, found ≠ expect ∧
        deserializeSubs r expect vs = .error (DeErr.dimsErr found expect) := by
  intro vs
  induction vs with
  | nil =>
      intro _ hmis
      obtain ⟨u, hu, -⟩ := hmis
      exact absurd hu (by simp)
  | cons v vl ih =>
      intro hall hmis
      obtain ⟨tv, htv⟩ := hall v (List.mem_cons_self v vl)
      by_cases hd : tv.dims = expect
      · have hmis' : ∃ u ∈ vl, ∀ tu, deserializeT r u = .ok tu → tu.dims ≠ expect := by
          obtain ⟨u, hu, hne⟩ := hmis
          rcases List.mem_cons.mp hu with rfl | hu'
          · exact absurd hd (hne tv htv)
          · exact ⟨u, hu', hne⟩
        obtain ⟨found, hfound, heq⟩ :=
          ih (fun u hu => hall u (List.mem_cons_of_mem v hu)) hmis'
        refine ⟨found, hfound, ?_⟩
        simp [deserializeSubs, htv, hd, heq]
      · refine ⟨tv.dims, hd, ?_⟩
        simp [deserializeSubs, htv, hd]

/-- C5: decoding a rank >= 2 nested sequence whose later siblings carry
dimensions different from the first sibling's fails with the
dimension-mismatch error that reports the found and the expected dims; no
tensor is produced, so nothing is truncated or padded. -/
theorem deserialize_mismatch_error (r : Nat) (v : SVal α) (vs : List (SVal α))
    (t : Tensor α)
    (hv : deserializeT (r + 1) v = .ok t)
    (hall : ∀ u ∈ vs, ∃ tu, deserializeT (r + 1) u = .ok tu)
    (hmis : ∃ u ∈ vs, ∀ tu, deserializeT (r + 1) u = .ok tu → tu.dims ≠ t.dims) :
    ∃ found, found ≠ t.dims ∧
      deserializeT (r + 2) (SVal.seq (v :: vs))
        = .error (DeErr.dimsErr found t.dims) := by
  obtain ⟨found, hfound, heq⟩ := deserializeSubs_mismatch (r + 1) t.dims vs hall hmis
  refine ⟨found, hfound, ?_⟩
  simp [deserializeT, hv, heq]

theorem deserialize_mismatch_error_witness :
    deserializeT 1 (SVal.seq [SVal.scalar (1 : Nat)]) = .ok ⟨[1], [1]⟩ ∧
    (∀ u ∈ [SVal.seq [SVal.scalar (2 : Nat), SVal.scalar 3]],
      ∃ tu, deserializeT 1 u = .ok tu) ∧
    (∃ u ∈ [SVal.seq [SVal.scalar (2 : Nat), SVal.scalar 3]],
      ∀ tu, deserializeT 1 u = .ok tu →
        tu.dims ≠ (⟨[1], [1]⟩ : Tensor Nat).dims) ∧
    (∃ found, found ≠ (⟨[1], [1]⟩ : Tensor Nat).dims ∧
      deserializeT 2 (SVal.seq [SVal.seq [SVal.scalar (1 : Nat)],
          SVal.seq [SVal.scalar 2, SVal.scalar 3]])
        = .error (DeErr.dimsErr found (⟨[1], [1]⟩ : Tensor Nat).dims)) := by
  have h1 : deserializeT 1 (SVal.seq [SVal.scalar (1 : Nat)]) = .ok ⟨[1], [1]⟩ := by
    simp [deserializeT, scalarsOf]
  have h2 : deserializeT 1 (SVal.seq [SVal.scalar (2 : Nat), SVal.scalar 3])
      = .ok ⟨[2, 3], [2]⟩ := by
    simp [deserializeT, scalarsOf]
  refine ⟨h1, ?_, ?_, ?_⟩
  · intro u hu
    rw [List.mem_singleton.mp hu]
    exact ⟨⟨[2, 3], [2]⟩, h2⟩
  · refine ⟨SVal.seq [SVal.scalar 2, SVal.scalar 3], List.mem_singleton_self _, ?_⟩
    intro tu htu
    rw [h2] at htu
    have htu' : tu = ⟨[2, 3], [2]⟩ := (Except.ok.inj htu).symm
    rw [htu']
    decide
  · exact deserialize_mismatch_error 0 (SVal.seq [SVal.scalar 1])
      [SVal.seq [SVal.scalar 2, SVal.scalar 3]] ⟨[1], [1]⟩ h1
      (fun u hu => by
        rw [List.mem_singleton.mp hu]
        exact ⟨⟨[2, 3], [2]⟩, h2⟩)
      ⟨SVal.seq [SVal.scalar 2, SVal.scalar 3], List.mem_singleton_self _, by
        intro tu htu
        rw [h2] at htu
        have : tu = ⟨[2, 3], [2]⟩ := (Except.ok.inj htu).symm
        rw [this]
        decide⟩
